import Mathlib

/-!
Shallow embedding of the data pipeline of the `githubreportsvisualizer`
repository (CSV parsing, categorization, filtering and aggregation from
`src/lib/fileParser.ts`, the chart aggregation from
`src/components/charts/ServiceChart.tsx`, and the filter component
`DataFilters`), together with theorems settling the frozen claims.

JavaScript strings are modelled as `List Char` (`JStr`); JavaScript
numbers as `ℚ` (every quantity handled by the program is produced by
`parseFloat` and combined with `+`, and the claims that talk about sums
hedge floating-point associativity away, so exact rationals are the
faithful model of the intended values).  JavaScript `undefined` for an
out-of-range index is modelled with `Option`.
-/

/- Batteries marks the arithmetic on `ℚ` irreducible; the concrete
evaluations below need it to reduce. -/
attribute [local semireducible] Rat.add Rat.mul Rat.sub Rat.inv Rat.ofScientific

abbrev JStr := List Char

def str (s : String) : JStr := s.toList

/-- The whitespace characters recognised by JavaScript `trim` /
`parseFloat` (ASCII subset; the exotic Unicode space characters are not
exercised by this code base). -/
def isWs (c : Char) : Bool :=
  c = ' ' || c = '\t' || c = '\n' || c = '\r' || c = '\x0b' || c = '\x0c'

/-- JavaScript `String.prototype.trim`. -/
def jsTrim (s : JStr) : JStr :=
  ((s.dropWhile isWs).reverse.dropWhile isWs).reverse

/-- JavaScript `String.prototype.split` with a one-character separator
(the source only ever splits on `","`, `"."` and `"\n"`). -/
def splitChar (c : Char) : JStr → List JStr
  | [] => [[]]
  | a :: l =>
    match splitChar c l with
    | [] => [[]]
    | r :: rs => if a = c then [] :: r :: rs else (a :: r) :: rs

/-- JavaScript `String.prototype.toLowerCase` (ASCII). -/
def toLowerStr (s : JStr) : JStr := s.map Char.toLower

/-- Helper for `subMatch`: does `hay` start with `needle`? -/
def leadMatch : JStr → JStr → Bool
  | [], _ => true
  | _ :: _, [] => false
  | a :: as, b :: bs => a == b && leadMatch as bs

/-- JavaScript `String.prototype.includes`: substring containment. -/
def subMatch (hay needle : JStr) : Bool :=
  leadMatch needle hay ||
    match hay with
    | [] => false
    | _ :: t => subMatch t needle

/-- `v.replace(/"/g, "").trim()` — the per-cell cleaning applied to every
header cell and every data cell (`fileParser.ts` lines 20 and 57): a
global strip of every double quote, then trim. -/
def cleanCell (v : JStr) : JStr := jsTrim (v.filter (fun c => c ≠ '"'))

def natVal (l : JStr) : ℕ := l.foldl (fun n c => n * 10 + (c.toNat - '0'.toNat)) 0

/-- JavaScript `parseFloat`: skip leading whitespace, optional sign,
digits with optional fraction, optional exponent; `none` models `NaN`.
(`Infinity` literals never occur in billing exports and are not
modelled.) -/
def parseFloatQ (s : JStr) : Option ℚ :=
  let s0 := s.dropWhile isWs
  let sgn : ℤ × JStr :=
    match s0 with
    | '-' :: t => (-1, t)
    | '+' :: t => (1, t)
    | _ => (1, s0)
  let ip := sgn.2.takeWhile Char.isDigit
  let s1 := sgn.2.dropWhile Char.isDigit
  let fr : JStr × JStr :=
    match s1 with
    | '.' :: t => (t.takeWhile Char.isDigit, t.dropWhile Char.isDigit)
    | _ => ([], s1)
  if ip = [] ∧ fr.1 = [] then none
  else
    -- the exact value sign * (intpart.fracpart) * 10^exponent, written as
    -- a single integer fraction so that it is kernel-computable
    let flen := fr.1.length
    let mantNum : ℤ := (natVal ip : ℤ) * (10 : ℤ) ^ flen + (natVal fr.1 : ℤ)
    let ex : ℤ :=
      match fr.2 with
      | 'e' :: t | 'E' :: t =>
        let es : ℤ × JStr :=
          match t with
          | '-' :: u => (-1, u)
          | '+' :: u => (1, u)
          | _ => (1, t)
        let ds := es.2.takeWhile Char.isDigit
        if ds = [] then 0 else es.1 * (natVal ds : ℤ)
      | _ => 0
    some (if 0 ≤ ex then
        mkRat (sgn.1 * mantNum * (10 : ℤ) ^ ex.toNat) ((10 : ℕ) ^ flen)
      else
        mkRat (sgn.1 * mantNum) ((10 : ℕ) ^ flen * (10 : ℕ) ^ (-ex).toNat))

/-- `parseFloat(x) || 0` where `x` may be `undefined` (absent column):
`parseFloat(undefined)` is `NaN`, and `NaN || 0`, `0 || 0` and `-0 || 0`
are all `0` (the latter two coincide with the parsed value in `ℚ`). -/
def jsParseFloatOr0 (o : Option JStr) : ℚ :=
  match o with
  | none => 0
  | some s => match parseFloatQ s with | none => 0 | some q => q

/-- `values[i]` where `i : Option ℕ` models the (possibly `-1`) result of
`findIndex`; out-of-range access yields `undefined`, i.e. `none`. -/
def getCell (values : List JStr) (i : Option ℕ) : Option JStr :=
  match i with
  | none => none
  | some n => values[n]?

/-- Resolved column indices (`fileParser.ts` lines 23–44); `none` models
`findIndex` returning `-1`. -/
structure ColumnIndices where
  date : Option ℕ
  product : Option ℕ
  sku : Option ℕ
  quantity : Option ℕ
  netAmount : Option ℕ
  organization : Option ℕ
  repository : Option ℕ
  costCenter : Option ℕ
  deriving Repr, DecidableEq

/-- The schema resolver: for each canonical field, the first header whose
lowercased text contains the recognised token (`fileParser.ts` 23–44). -/
def resolveIndices (header : List JStr) : ColumnIndices where
  date := header.findIdx? (fun h => subMatch (toLowerStr h) (str "date"))
  product := header.findIdx? (fun h => subMatch (toLowerStr h) (str "product"))
  sku := header.findIdx? (fun h => subMatch (toLowerStr h) (str "sku"))
  quantity := header.findIdx? (fun h => subMatch (toLowerStr h) (str "quantity"))
  netAmount := header.findIdx? (fun h => subMatch (toLowerStr h) (str "net_amount"))
  organization := header.findIdx? (fun h => subMatch (toLowerStr h) (str "organization"))
  repository := header.findIdx? (fun h => subMatch (toLowerStr h) (str "repository"))
  costCenter := header.findIdx?
    (fun h => subMatch (toLowerStr h) (str "cost_center") ||
      subMatch (toLowerStr h) (str "costcenter"))

/-- One usage record (`ServiceData` in `types/billing.ts`); the optional
text fields use `[]` (empty string) for "absent", exactly as the parser
does. -/
structure ServiceData where
  date : JStr
  cost : ℚ
  quantity : ℚ
  sku : JStr
  organization : JStr
  repository : JStr
  costCenter : JStr
  deriving Repr, DecidableEq

/-- The five service buckets. -/
inductive Bucket where
  | actionsMinutes | actionsStorage | packages | copilot | codespaces
  deriving Repr, DecidableEq

structure CategorizedBillingData where
  actionsMinutes : List ServiceData
  actionsStorage : List ServiceData
  packages : List ServiceData
  copilot : List ServiceData
  codespaces : List ServiceData
  deriving Repr, DecidableEq

/-- The product-based categorizer: the `switch (product.toLowerCase())`
of `fileParser.ts` lines 83–105.  Note that `sku` is used as-is (only
`product` is lowercased) and `String.prototype.includes` is
case-sensitive. -/
def categorize (product sku : JStr) : Option Bucket :=
  let p := toLowerStr product
  if p = str "actions" then
    if subMatch sku (str "storage") then some .actionsStorage
    else if subMatch sku (str "linux") || subMatch sku (str "windows") ||
        subMatch sku (str "macos") || subMatch sku (str "self_hosted") then
      some .actionsMinutes
    else none
  else if p = str "packages" then some .packages
  else if p = str "copilot" then some .copilot
  else if p = str "codespaces" then some .codespaces
  else none

/-- Processing of one data row (`fileParser.ts` lines 55–105): split on
commas, clean each cell, skip incomplete rows, skip rows with missing
date/product/sku, coerce numbers, categorize.  `none` = the row
contributes nothing (skipped or uncategorized). -/
def rowOutput (hdrLen : ℕ) (idx : ColumnIndices) (line : JStr) :
    Option (Bucket × ServiceData) :=
  let values := (splitChar ',' line).map cleanCell
  if values.length < hdrLen then none
  else
    let date := (getCell values idx.date).getD []
    let product := (getCell values idx.product).getD []
    let sku := (getCell values idx.sku).getD []
    if date = [] || product = [] || sku = [] then none
    else
      (categorize product sku).map fun b =>
        (b, { date := date
              cost := jsParseFloatOr0 (getCell values idx.netAmount)
              quantity := jsParseFloatOr0 (getCell values idx.quantity)
              sku := sku
              organization := (getCell values idx.organization).getD []
              repository := (getCell values idx.repository).getD []
              costCenter := (getCell values idx.costCenter).getD [] })

/-- Distribute the tagged row stream into the five buckets; each bucket
receives its records in row order (the JS code pushes while iterating). -/
def categorizedOf (rows : List (Bucket × ServiceData)) : CategorizedBillingData where
  actionsMinutes := (rows.filter (fun r => r.1 = .actionsMinutes)).map (·.2)
  actionsStorage := (rows.filter (fun r => r.1 = .actionsStorage)).map (·.2)
  packages := (rows.filter (fun r => r.1 = .packages)).map (·.2)
  copilot := (rows.filter (fun r => r.1 = .copilot)).map (·.2)
  codespaces := (rows.filter (fun r => r.1 = .codespaces)).map (·.2)

/-- `Object.values(categorizedData).flat()`, tagged with the bucket each
item came from.  The tag stands for the JS reference-equality membership
tests (`categorizedData.actionsMinutes.includes(item)` …), which identify
exactly the bucket an item was pushed into. -/
def taggedFlat (c : CategorizedBillingData) : List (Bucket × ServiceData) :=
  c.actionsMinutes.map (Prod.mk .actionsMinutes) ++
  c.actionsStorage.map (Prod.mk .actionsStorage) ++
  c.packages.map (Prod.mk .packages) ++
  c.copilot.map (Prod.mk .copilot) ++
  c.codespaces.map (Prod.mk .codespaces)

/-- Accumulator entry of the monthly summary (`monthlyData` map). -/
structure MonthAgg where
  key : JStr
  actions : ℚ
  packages : ℚ
  storage : ℚ
  deriving Repr, DecidableEq

/-- Add one item's cost into a month entry: `actionsMinutes` feeds
`actions`, `packages` feeds `packages`, `actionsStorage` feeds `storage`;
`copilot`/`codespaces` only create the entry (lines 128–135). -/
def addMonth (b : Bucket) (cost : ℚ) (e : MonthAgg) : MonthAgg :=
  match b with
  | .actionsMinutes => { e with actions := e.actions + cost }
  | .packages => { e with packages := e.packages + cost }
  | .actionsStorage => { e with storage := e.storage + cost }
  | _ => e

/-- Insertion-ordered map update, as a JS `Map` behaves. -/
def upsertMonth : List MonthAgg → JStr → Bucket → ℚ → List MonthAgg
  | [], mk, b, c => [addMonth b c ⟨mk, 0, 0, 0⟩]
  | e :: t, mk, b, c =>
    if e.key = mk then addMonth b c e :: t else e :: upsertMonth t mk b c

def monthlyAggOf (flat : List (Bucket × ServiceData)) : List MonthAgg :=
  flat.foldl (fun acc p => upsertMonth acc (p.2.date.take 7) p.1 p.2.cost) []

/-- `new Date(month + "-01").toLocaleDateString("en-US", {month:"short"})`
for a `"YYYY-MM"` key. -/
def monthShort (key : JStr) : JStr :=
  match splitChar '-' key with
  | [y, m] =>
    if y.length = 4 ∧ m.length = 2 ∧ y.all Char.isDigit ∧ m.all Char.isDigit ∧
        1 ≤ natVal m ∧ natVal m ≤ 12 then
      ([str "Jan", str "Feb", str "Mar", str "Apr", str "May", str "Jun",
        str "Jul", str "Aug", str "Sep", str "Oct", str "Nov",
        str "Dec"]).getD (natVal m - 1) []
    else str "Invalid Date"
  | _ => str "Invalid Date"

/-- One row of the legacy monthly summary (`BillingData`). -/
structure MonthRow where
  month : JStr
  actions : ℚ
  packages : ℚ
  storage : ℚ
  total : ℚ
  deriving Repr, DecidableEq

/-- Lexicographic `≤` on JS strings: both the default string `sort()` and
`localeCompare` order the ASCII strings of this pipeline this way. -/
def strLe (a b : JStr) : Prop := a ≤ b

instance : DecidableRel strLe := fun a b => inferInstanceAs (Decidable (a ≤ b))

/-- `fileParser.ts` lines 138–146: sort the month entries and render. -/
def monthlyDataOf (c : CategorizedBillingData) : List MonthRow :=
  (List.insertionSort (fun a b : MonthAgg => strLe a.key b.key)
      (monthlyAggOf (taggedFlat c))).map fun e =>
    { month := monthShort e.key
      actions := e.actions
      packages := e.packages
      storage := e.storage
      total := e.actions + e.packages + e.storage }

structure ParseResult where
  data : List MonthRow
  categorizedData : CategorizedBillingData
  deriving Repr, DecidableEq

/-- `parseCSV` after the `trim().split("\n")` step: header resolution and
the row loop; the thrown "empty or invalid" error is the `.error` case. -/
def parseLines (lines : List JStr) : Except String ParseResult :=
  if lines.length < 2 then .error "CSV file appears to be empty or invalid"
  else
    let header := (splitChar ',' (lines.headD [])).map cleanCell
    let idx := resolveIndices header
    let cat := categorizedOf (lines.tail.filterMap (rowOutput header.length idx))
    .ok { data := monthlyDataOf cat, categorizedData := cat }

/-- `parseCSV` (`fileParser.ts` lines 9–149). -/
def parseCSV (content : JStr) : Except String ParseResult :=
  parseLines (splitChar '\n' (jsTrim content))

/-- An uploaded file: its name and the outcome of `file.text()` (`.error
m` models a rejected read whose `Error` carries message `m`). -/
structure JSFile where
  name : JStr
  text : Except String JStr
  deriving Repr

structure GitHubBillingReport where
  organization : JStr
  periodStart : JStr
  periodEnd : JStr
  data : List MonthRow
  categorizedData : CategorizedBillingData
  deriving Repr, DecidableEq

structure FileUploadResult where
  success : Bool
  error : Option String := none
  data : Option GitHubBillingReport := none
  deriving Repr

/-- Insertion-ordered occurrence counting (`reduce` over an object,
`fileParser.ts` lines 181–188). -/
def bumpCount : List (JStr × ℕ) → JStr → List (JStr × ℕ)
  | [], k => [(k, 1)]
  | e :: t, k => if e.1 = k then (e.1, e.2 + 1) :: t else e :: bumpCount t k

def countOf (l : List (JStr × ℕ)) (k : JStr) : ℕ :=
  ((l.find? (fun e => e.1 = k)).map (·.2)).getD 0

/-- `processFile` (`fileParser.ts` lines 151–214).  The surrounding
`try`/`catch` makes it a total function into a structured result: thrown
errors (unreadable file, the parse error) surface as
`success = false` plus their message. -/
def processFile (f : JSFile) : FileUploadResult :=
  match f.text with
  | .error m => { success := false, error := some m }
  | .ok content =>
    -- file.name.split(".").pop()?.toLowerCase()
    let ext := toLowerStr ((splitChar '.' f.name).getLastD [])
    if ext ≠ str "csv" then
      { success := false, error := some "Invalid file format. Please upload a CSV file." }
    else
      match parseCSV content with
      | .error m => { success := false, error := some m }
      | .ok res =>
        if res.data.length = 0 then
          { success := false, error := some "No billing data found in the CSV file." }
        else
          let flat := taggedFlat res.categorizedData
          let allDates := List.insertionSort strLe (flat.map (fun p => p.2.date))
          let orgCounts :=
            (flat.map (fun p => p.2.organization)).foldl
              (fun acc o => if o = [] then acc else bumpCount acc o) []
          let sortedOrgs := List.insertionSort
            (fun a b => countOf orgCounts b ≤ countOf orgCounts a) (orgCounts.map (·.1))
          { success := true
            data := some
              { organization := sortedOrgs.headD (str "Unknown")
                periodStart := allDates.headD []
                periodEnd := allDates.getLastD []
                data := res.data
                categorizedData := res.categorizedData } }

/-! ### The filter engine (`DataProcessor.filterData`) -/

/-- The optional filter arguments of `DataProcessor.filterData`; `[]`
models both `undefined` and the empty string (both falsy). -/
structure FilterArgs where
  startDate : JStr := []
  endDate : JStr := []
  organization : JStr := []
  repository : JStr := []
  costCenter : JStr := []
  deriving Repr, DecidableEq

/-- The row predicate of `DataProcessor.filterData` (lines 342–360):
date-range bounds by lexicographic string comparison, then exact
equality for the three text facets, each with an `"all"` sentinel. -/
def filterPred (f : FilterArgs) (item : ServiceData) : Bool :=
  if f.startDate ≠ [] ∧ item.date < f.startDate then false
  else if f.endDate ≠ [] ∧ f.endDate < item.date then false
  else if f.organization ≠ [] ∧ f.organization ≠ str "all" ∧
      item.organization ≠ f.organization then false
  else if f.repository ≠ [] ∧ f.repository ≠ str "all" ∧
      item.repository ≠ f.repository then false
  else if f.costCenter ≠ [] ∧ f.costCenter ≠ str "all" ∧
      item.costCenter ≠ f.costCenter then false
  else true

def filterData (data : List ServiceData) (f : FilterArgs) : List ServiceData :=
  data.filter (filterPred f)

/-! ### The `DataFilters` component (`src/unnamed/part_001`) -/

structure FilterState where
  dateStart : JStr
  dateEnd : JStr
  organization : JStr
  costCenter : JStr
  repository : JStr
  deriving Repr, DecidableEq

/-- `Array.from(new Set(xs))`: first-occurrence deduplication. -/
def dedupFirst : List JStr → List JStr
  | [] => []
  | a :: l => a :: dedupFirst (l.filter (fun x => x ≠ a))
termination_by l => l.length
decreasing_by
  simp only [List.length_cons]
  exact Nat.lt_succ_of_le (List.length_filter_le _ _)

/-- The organization-dependent repository option list (`part_001` lines
50–62): empty when no organization is selected, otherwise the sorted
distinct non-empty repositories of the records of that organization. -/
def repoOptions (data : List ServiceData) (org : JStr) : List JStr :=
  if org = [] then []
  else
    List.insertionSort strLe
      (dedupFirst
        (((data.filter (fun it => it.organization = org)).map
            (·.repository)).filter (fun r => r ≠ [])))

/-- `handleOrganizationChange` (`part_001` lines 148–154): set the
organization and reset the repository filter in the same update. -/
def handleOrganizationChange (st : FilterState) (org : JStr) : FilterState :=
  { st with organization := org, repository := [] }

/-- The filter predicate of the `DataFilters` component (`part_001`
lines 85–107); unlike `DataProcessor.filterData` it has no `"all"`
sentinel. -/
def dataFiltersPred (st : FilterState) (item : ServiceData) : Bool :=
  if st.dateStart ≠ [] ∧ item.date < st.dateStart then false
  else if st.dateEnd ≠ [] ∧ st.dateEnd < item.date then false
  else if st.organization ≠ [] ∧ item.organization ≠ st.organization then false
  else if st.costCenter ≠ [] ∧ item.costCenter ≠ st.costCenter then false
  else if st.repository ≠ [] ∧ item.repository ≠ st.repository then false
  else true

def dataFiltersFiltered (data : List ServiceData) (st : FilterState) : List ServiceData :=
  data.filter (dataFiltersPred st)

/-! ### Repository aggregation and the stacked daily chart
(`ServiceChart.tsx`: `ActionsMinutesDetailedChart` lines 337–409 and
412–438, `RepositoryBasedChart` lines 682–771; the same per-key-totals /
top-N / "Others" computation appears in
`DataProcessor.aggregateByRepository`, `fileParser.ts` part 2 lines
431–487). -/

inductive Breakdown where
  | cost | quantity
  deriving Repr, DecidableEq

def metric (bd : Breakdown) (v : ℚ × ℚ) : ℚ :=
  match bd with
  | .cost => v.1
  | .quantity => v.2

/-- `item.repository || "Unknown"`. -/
def repoKeyOf (it : ServiceData) : JStr :=
  if it.repository = [] then str "Unknown" else it.repository

/-- Insertion-ordered upsert into the per-repository totals object. -/
def upsertTotal : List (JStr × ℚ × ℚ) → JStr → ℚ → ℚ → List (JStr × ℚ × ℚ)
  | [], k, c, q => [(k, c, q)]
  | e :: t, k, c, q =>
    if e.1 = k then (e.1, e.2.1 + c, e.2.2 + q) :: t else e :: upsertTotal t k c q

/-- `repoTotals`: per-repository `{cost, quantity}` totals in
first-encountered key order (`Object.entries` order). -/
def repoTotalsList (data : List ServiceData) : List (JStr × ℚ × ℚ) :=
  data.foldl (fun acc it => upsertTotal acc (repoKeyOf it) it.cost it.quantity) []

/-- The ranked entry list: JS `sort` with comparator
`(a, b) => metric(b) - metric(a)` is a stable descending sort, which a
stable insertion sort with relation `metric b ≤ metric a` reproduces. -/
def rankedRepoPairs (bd : Breakdown) (data : List ServiceData) : List (JStr × ℚ × ℚ) :=
  List.insertionSort (fun a b => metric bd a.2 ≥ metric bd b.2) (repoTotalsList data)

/-- `topRepos`: keys of the first `n` ranked entries. -/
def topReposBy (bd : Breakdown) (n : ℕ) (data : List ServiceData) : List JStr :=
  ((rankedRepoPairs bd data).take n).map (·.1)

/-- `repoTotals[k]` lookup. -/
def lookupTotal (pairs : List (JStr × ℚ × ℚ)) (k : JStr) : ℚ × ℚ :=
  ((pairs.find? (fun e => e.1 = k)).map (·.2)).getD (0, 0)

/-- `otherRepos = Object.keys(repoTotals).filter(r => !topRepos.includes(r))`. -/
def otherRepoKeys (bd : Breakdown) (n : ℕ) (data : List ServiceData) : List JStr :=
  ((repoTotalsList data).map (·.1)).filter
    (fun k => !(topReposBy bd n data).contains k)

/-- `othersCost`: the fold `otherRepos.reduce((s, r) => s + repoTotals[r].cost, 0)`. -/
def othersCost (bd : Breakdown) (n : ℕ) (data : List ServiceData) : ℚ :=
  ((otherRepoKeys bd n data).map
    (fun k => (lookupTotal (repoTotalsList data) k).1)).sum

def othersQuantity (bd : Breakdown) (n : ℕ) (data : List ServiceData) : ℚ :=
  ((otherRepoKeys bd n data).map
    (fun k => (lookupTotal (repoTotalsList data) k).2)).sum

/-- `repoBreakdown`: the named top-N entries followed, when any key was
excluded, by the synthetic `"Others"` entry. -/
def repoBreakdown (bd : Breakdown) (n : ℕ) (data : List ServiceData) :
    List (JStr × ℚ × ℚ) :=
  ((topReposBy bd n data).map
    (fun k => (k, lookupTotal (repoTotalsList data) k))) ++
  (if otherRepoKeys bd n data ≠ [] then
    [(str "Others", othersCost bd n data, othersQuantity bd n data)]
  else [])

/-- One row of the daily stacked-series matrix: the dynamic
`acc[date][repo]` / `acc[date][repo + "_quantity"]` fields are modelled
as an association list from series key to `(cost, quantity)`. -/
structure ChartRow where
  date : JStr
  total : ℚ
  totalQuantity : ℚ
  series : List (JStr × ℚ × ℚ)
  deriving Repr, DecidableEq

/-- JS object property assignment (`obj[k] = v`): replace or append. -/
def setSeries : List (JStr × ℚ × ℚ) → JStr → ℚ × ℚ → List (JStr × ℚ × ℚ)
  | [], k, v => [(k, v.1, v.2)]
  | e :: t, k, v => if e.1 = k then (e.1, v.1, v.2) :: t else e :: setSeries t k v

/-- `(acc[date][repo] || 0, acc[date][repo + "_quantity"] || 0)`. -/
def getSeries (s : List (JStr × ℚ × ℚ)) (k : JStr) : ℚ × ℚ :=
  ((s.find? (fun e => e.1 = k)).map (·.2)).getD (0, 0)

/-- A fresh `acc[date]` entry: zero fields for every top repository and
for `"Others"` (lines 381–390). -/
def initRow (top : List JStr) (d : JStr) : ChartRow where
  date := d
  total := 0
  totalQuantity := 0
  series := (top ++ [str "Others"]).foldl (fun s k => setSeries s k (0, 0)) []

/-- Add one item into its date row (lines 392–396). -/
def addItemRow (top : List JStr) (r : ChartRow) (it : ServiceData) : ChartRow :=
  let repo := if top.contains (repoKeyOf it) then repoKeyOf it else str "Others"
  let cur := getSeries r.series repo
  { r with
    series := setSeries r.series repo (cur.1 + it.cost, cur.2 + it.quantity)
    total := r.total + it.cost
    totalQuantity := r.totalQuantity + it.quantity }

def upsertRow (top : List JStr) : List ChartRow → ServiceData → List ChartRow
  | [], it => [addItemRow top (initRow top it.date) it]
  | r :: t, it =>
    if r.date = it.date then addItemRow top r it :: t else r :: upsertRow top t it

/-- `dailyData` in insertion (`Object.values`) order. -/
def dailyRows (top : List JStr) (data : List ServiceData) : List ChartRow :=
  data.foldl (upsertRow top) []

def monthNames : List JStr :=
  [str "Jan", str "Feb", str "Mar", str "Apr", str "May", str "Jun",
   str "Jul", str "Aug", str "Sep", str "Oct", str "Nov", str "Dec"]

def daysInMonth (y m : ℕ) : ℕ :=
  if m = 2 then
    if y % 4 = 0 ∧ (y % 100 ≠ 0 ∨ y % 400 = 0) then 29 else 28
  else if m = 4 ∨ m = 6 ∨ m = 9 ∨ m = 11 then 30
  else 31

/-- Parse a well-formed `"YYYY-MM-DD"` date (the format of GitHub billing
exports; anything else renders as `"Invalid Date"`). -/
def parseISODate (d : JStr) : Option (ℕ × ℕ × ℕ) :=
  match splitChar '-' d with
  | [y, m, dd] =>
    if y.length = 4 ∧ m.length = 2 ∧ dd.length = 2 ∧
        y.all Char.isDigit ∧ m.all Char.isDigit ∧ dd.all Char.isDigit ∧
        1 ≤ natVal m ∧ natVal m ≤ 12 ∧
        1 ≤ natVal dd ∧ natVal dd ≤ daysInMonth (natVal y) (natVal m) then
      some (natVal y, natVal m, natVal dd)
    else none
  | _ => none

def natDigits (n : ℕ) : JStr := (toString n).toList

/-- `new Date(d).toLocaleDateString("en-US", {month:"short", day:"numeric"})`:
the year-free display string, e.g. `"Jan 5"`. -/
def displayDate (d : JStr) : JStr :=
  match parseISODate d with
  | some (_, m, dd) => (monthNames.getD (m - 1) []) ++ str " " ++ natDigits dd
  | none => str "Invalid Date"

/-- Re-parse of a display string, as `new Date("Jan 5")` does: a month
name and a day, with NO year (V8 supplies a fixed default year), so the
comparison key is (month, day).  An unparsable string (`"Invalid Date"`)
gets key 0, standing for the `NaN` comparator outcome. -/
def dispKey (s : JStr) : ℕ :=
  match splitChar ' ' s with
  | [mon, dd] =>
    match monthNames.findIdx? (fun m => m = mon) with
    | some mi => if dd ≠ [] ∧ dd.all Char.isDigit then (mi + 1) * 100 + natVal dd else 0
    | none => 0
  | _ => 0

/-- The chart sort relation: `new Date(a.date).getTime() -
new Date(b.date).getTime()` evaluated on the year-free display strings. -/
def dispLe (a b : ChartRow) : Prop := dispKey a.date ≤ dispKey b.date

instance : DecidableRel dispLe := fun a b =>
  inferInstanceAs (Decidable (dispKey a.date ≤ dispKey b.date))

/-- `{...item, date: display}` (line 401–407). -/
def displayRow (r : ChartRow) : ChartRow := { r with date := displayDate r.date }

/-- `Array.prototype.slice(-n)`. -/
def takeLast (n : ℕ) (l : List α) : List α := l.drop (l.length - n)

/-- `stackedChartData` (`ServiceChart.tsx` lines 400–409 and 733–742):
map every row to its display string, then sort by `new Date` of that
display string, then keep the last 30 rows. -/
def stackedChartData (top : List JStr) (data : List ServiceData) : List ChartRow :=
  takeLast 30 (List.insertionSort dispLe ((dailyRows top data).map displayRow))

/-- The view of `ActionsMinutesDetailedChart`: top 10 repositories by
cost feed the stacked matrix. -/
def actionsMinutesStacked (data : List ServiceData) : List ChartRow :=
  stackedChartData (topReposBy .cost 10 data) data

/-- What the spec claims the sort to be (modelled from the spec sentence
"Rows are finally sorted by actual date value (not display string)
ascending"): sort the rows by their original ISO date and only then
render the display strings. -/
def specDateSortedStacked (top : List JStr) (data : List ServiceData) : List ChartRow :=
  takeLast 30
    ((List.insertionSort (fun a b : ChartRow => strLe a.date b.date)
        (dailyRows top data)).map displayRow)

/-- The conventional notion of a file extension, modelled from the
claim's words "the file's extension is not `.csv`": the name ends with
`".csv"` up to case.  (A bare dotless name has no extension.) -/
def specNameHasCsvExt (name : JStr) : Bool :=
  (str ".csv").isSuffixOf (toLowerStr name)

def exceptOk (e : Except String ParseResult) : Bool :=
  match e with
  | .ok _ => true
  | .error _ => false

/-- Projection used by counterexamples: the costs of the actionsMinutes
bucket of a parse result. -/
def minutesCosts (e : Except String ParseResult) : List ℚ :=
  match e with
  | .ok r => r.categorizedData.actionsMinutes.map (·.cost)
  | .error _ => []

def minutesQuantities (e : Except String ParseResult) : List ℚ :=
  match e with
  | .ok r => r.categorizedData.actionsMinutes.map (·.quantity)
  | .error _ => []

/-- The row-skip conditions named by the claims: short row, or empty
(or absent) date / product / sku cell. -/
def isSkippableRow (header : List JStr) (idx : ColumnIndices) (line : JStr) : Bool :=
  let values := (splitChar ',' line).map cleanCell
  values.length < header.length ||
    (getCell values idx.date).getD [] = [] ||
    (getCell values idx.product).getD [] = [] ||
    (getCell values idx.sku).getD [] = []

/-! ### Concrete data used by the claim theorems and their witnesses -/

/-- The header row of the spec's "header flexibility" property. -/
def flexHeader : List JStr :=
  [str "usage_date", str "service", str "SKU", str "units",
   str "applied_cost_per_quantity"]

def cIdx : ColumnIndices := ⟨some 0, some 1, some 2, some 3, some 4, none, none, none⟩

def demoLine : JStr := str "2024-01-05,actions,linux,5,7"

def demoRec : ServiceData := ⟨str "2024-01-05", 7, 5, str "linux", [], [], []⟩

def demoLineQ : JStr := str "\"2024-01-05\",actions,li\"nux,2,3"

def demoRecQ : ServiceData := ⟨str "2024-01-05", 3, 2, str "linux", [], [], []⟩

instance : IsTotal JStr strLe := ⟨fun a b => le_total a b⟩

instance : IsTrans JStr strLe := ⟨fun _ _ _ hab hbc => le_trans hab hbc⟩

def rDec : ServiceData := ⟨str "2023-12-01", 1, 1, str "linux", str "o", str "rA", []⟩

def rJan : ServiceData := ⟨str "2024-01-15", 2, 1, str "linux", str "o", str "rA", []⟩

def dataC4 : List ServiceData := [rDec, rJan]

/-- The number of non-empty newline-separated lines of a text, as the
claim's phrase "fewer than two non-empty lines" reads. -/
def nonEmptyLineCount (content : JStr) : ℕ :=
  ((splitChar '\n' content).filter (fun x => x ≠ [])).length

def goodContent : JStr :=
  str "Date,Product,SKU,Quantity,Net_Amount\n2024-01-05,actions,linux,120,4.80"

def fBadExt : JSFile := ⟨str "data.txt", .ok goodContent⟩

def fShort : JSFile := ⟨str "a.csv", .ok (str "onlyheader")⟩

def fNoData : JSFile := ⟨str "b.csv", .ok (str "Date,Product,SKU\nfoo")⟩

/-! ## Claims -/

/-- C1 (counterexample).  The claim states that on the header
`["usage_date","service","SKU","units","applied_cost_per_quantity"]` the
resolver binds date, product, sku, quantity and cost to columns
0, 1, 2, 3, 4.  It does not: the resolver searches for the tokens
`"product"`, `"quantity"` and `"net_amount"`, so `"service"` never
matches product, `"units"` never matches quantity, and no header matches
cost. -/
theorem resolveIndices_flexHeader_cex :
    ¬ ((resolveIndices flexHeader).date = some 0 ∧
       (resolveIndices flexHeader).product = some 1 ∧
       (resolveIndices flexHeader).sku = some 2 ∧
       (resolveIndices flexHeader).quantity = some 3 ∧
       (resolveIndices flexHeader).netAmount = some 4) := by decide

/-- C1 (amended): on that header the resolver binds `date` to column 0
and `sku` to column 2; `product` and `cost`/`net_amount` stay unresolved,
and `quantity` binds to column 4, whose header `applied_cost_per_quantity`
is the only one containing the substring `"quantity"`. -/
theorem resolveIndices_flexHeader :
    (resolveIndices flexHeader).date = some 0 ∧
    (resolveIndices flexHeader).sku = some 2 ∧
    (resolveIndices flexHeader).product = none ∧
    (resolveIndices flexHeader).quantity = some 4 ∧
    (resolveIndices flexHeader).netAmount = none := by decide

/-- C2 (counterexample).  The claim asserts case-insensitive sku
matching: a record with product `"actions"` and sku
`"GitHub Actions - Storage"` should land in `actionsStorage`.  The code
tests `sku.includes("storage")` on the raw sku, which is case-sensitive,
so this record matches neither the storage nor the minutes test and is
dropped. -/
theorem categorize_capitalStorage_cex :
    categorize (str "actions") (str "GitHub Actions - Storage") ≠
      some Bucket.actionsStorage ∧
    categorize (str "actions") (str "GitHub Actions - Storage") = none := by decide

/-- C2 (amended): for every record whose product lowercases to
`"actions"` and whose sku contains the substring `"storage"` under
case-SENSITIVE comparison, the categorizer yields `actionsStorage` and
never `actionsMinutes`, even when the sku also contains a minutes token
— the storage test is first. -/
theorem categorize_storage_first (product sku : JStr)
    (hp : toLowerStr product = str "actions")
    (hs : subMatch sku (str "storage") = true) :
    categorize product sku = some Bucket.actionsStorage := by
  simp only [categorize, hp, hs, if_pos, if_true, reduceIte]

/-- Witness for `categorize_storage_first`: a sku containing both a
minutes token and `"storage"`. -/
theorem categorize_storage_first_witness :
    toLowerStr (str "Actions") = str "actions" ∧
    subMatch (str "linux actions - storage") (str "storage") = true ∧
    categorize (str "Actions") (str "linux actions - storage") =
      some Bucket.actionsStorage :=
  ⟨by decide, by decide, categorize_storage_first _ _ (by decide) (by decide)⟩

/-- C7.  Both filter implementations are `List.filter` of a pure
conjunction predicate, so: the result is an order-preserving subsequence
of the input, composing two filter applications never increases length,
and the applications commute. -/
theorem filterData_monotone_commute (data : List ServiceData)
    (fA fB : FilterArgs) (sA sB : FilterState) :
    List.Sublist (filterData data fA) data ∧
    (filterData (filterData data fA) fB).length ≤ (filterData data fA).length ∧
    filterData (filterData data fA) fB = filterData (filterData data fB) fA ∧
    List.Sublist (dataFiltersFiltered data sA) data ∧
    (dataFiltersFiltered (dataFiltersFiltered data sA) sB).length ≤
      (dataFiltersFiltered data sA).length ∧
    dataFiltersFiltered (dataFiltersFiltered data sA) sB =
      dataFiltersFiltered (dataFiltersFiltered data sB) sA := by
  refine ⟨List.filter_sublist _, List.length_filter_le _ _, ?_,
    List.filter_sublist _, List.length_filter_le _ _, ?_⟩ <;>
    · simp only [filterData, dataFiltersFiltered, List.filter_filter]
      congr 1
      funext item
      rw [Bool.and_comm]

/-! ## Helper lemmas -/

theorem mem_jsTrim {c : Char} {s : JStr} (h : c ∈ jsTrim s) : c ∈ s := by
  unfold jsTrim at h
  rw [List.mem_reverse] at h
  have h1 := (List.dropWhile_sublist isWs).mem h
  rw [List.mem_reverse] at h1
  exact (List.dropWhile_sublist isWs).mem h1

theorem quote_not_mem_cleanCell (v : JStr) : '"' ∉ cleanCell v := by
  intro h
  have h1 := mem_jsTrim h
  have := (List.mem_filter.mp h1).2
  simp at this

/-- Inversion of `rowOutput`: a produced record's fields are exactly the
cleaned cells (resp. numeric coercions) the source assigns. -/
theorem rowOutput_inv {hdrLen : ℕ} {idx : ColumnIndices} {line : JStr}
    {b : Bucket} {r : ServiceData}
    (h : rowOutput hdrLen idx line = some (b, r)) :
    r.date = (getCell ((splitChar ',' line).map cleanCell) idx.date).getD [] ∧
    r.cost = jsParseFloatOr0 (getCell ((splitChar ',' line).map cleanCell) idx.netAmount) ∧
    r.quantity = jsParseFloatOr0 (getCell ((splitChar ',' line).map cleanCell) idx.quantity) ∧
    r.sku = (getCell ((splitChar ',' line).map cleanCell) idx.sku).getD [] ∧
    r.organization = (getCell ((splitChar ',' line).map cleanCell) idx.organization).getD [] ∧
    r.repository = (getCell ((splitChar ',' line).map cleanCell) idx.repository).getD [] ∧
    r.costCenter = (getCell ((splitChar ',' line).map cleanCell) idx.costCenter).getD [] := by
  simp only [rowOutput] at h
  split at h
  · exact absurd h (by simp)
  · split at h
    · exact absurd h (by simp)
    · rw [Option.map_eq_some'] at h
      obtain ⟨b', _, heq⟩ := h
      cases heq
      exact ⟨rfl, rfl, rfl, rfl, rfl, rfl, rfl⟩

theorem quote_not_mem_getCell (line : JStr) (i : Option ℕ) :
    '"' ∉ (getCell ((splitChar ',' line).map cleanCell) i).getD [] := by
  unfold getCell
  match i with
  | none => simp
  | some n =>
    match hv : ((splitChar ',' line).map cleanCell)[n]? with
    | none => simp [hv]
    | some v =>
      simp only [hv, Option.getD_some]
      have hm : v ∈ (splitChar ',' line).map cleanCell := by
        rw [List.getElem?_eq_some] at hv
        obtain ⟨hlt, hv⟩ := hv
        exact hv ▸ List.getElem_mem hlt
      obtain ⟨u, _, hu⟩ := List.mem_map.mp hm
      exact hu ▸ quote_not_mem_cleanCell u

/-- C9 (counterexample).  The claim says every produced record has
`cost ≥ 0` and `quantity ≥ 0` even for negative numeric cells; but
`parseFloat(v) || 0` only replaces `NaN` (and `±0`) by `0`, so a negative
cell passes through: the row `2024-01-05,actions,linux,-5,-7` produces a
record with quantity `-5` and cost `-7`. -/
theorem parseCSV_negative_cells_cex :
    minutesCosts (parseCSV
      (str "Date,Product,SKU,Quantity,Net_Amount\n2024-01-05,actions,linux,-5,-7")) =
      [(-7 : ℚ)] ∧
    minutesQuantities (parseCSV
      (str "Date,Product,SKU,Quantity,Net_Amount\n2024-01-05,actions,linux,-5,-7")) =
      [(-5 : ℚ)] ∧
    ((-7 : ℚ) < 0 ∧ (-5 : ℚ) < 0) := by decide

/-- C9 (amended): a produced record's `cost` and `quantity` are exactly
the `parseFloat(cell) || 0` coercions of the corresponding cells, so they
are non-negative whenever those coerced values are (in particular for
non-numeric, missing or non-negative cells); a negative numeric cell
passes through as a negative value. -/
theorem rowOutput_value_passthrough (hdrLen : ℕ) (idx : ColumnIndices)
    (line : JStr) (b : Bucket) (r : ServiceData)
    (h : rowOutput hdrLen idx line = some (b, r)) :
    r.cost = jsParseFloatOr0 (getCell ((splitChar ',' line).map cleanCell) idx.netAmount) ∧
    r.quantity = jsParseFloatOr0 (getCell ((splitChar ',' line).map cleanCell) idx.quantity) ∧
    (0 ≤ jsParseFloatOr0 (getCell ((splitChar ',' line).map cleanCell) idx.netAmount) →
      0 ≤ r.cost) ∧
    (0 ≤ jsParseFloatOr0 (getCell ((splitChar ',' line).map cleanCell) idx.quantity) →
      0 ≤ r.quantity) := by
  obtain ⟨_, hc, hq, _⟩ := rowOutput_inv h
  exact ⟨hc, hq, fun hh => hc ▸ hh, fun hh => hq ▸ hh⟩

/-- Witness for `rowOutput_value_passthrough` at a concrete row. -/
theorem rowOutput_value_passthrough_witness :
    rowOutput 5 cIdx demoLine = some (Bucket.actionsMinutes, demoRec) ∧
    (demoRec.cost =
        jsParseFloatOr0 (getCell ((splitChar ',' demoLine).map cleanCell) cIdx.netAmount) ∧
      demoRec.quantity =
        jsParseFloatOr0 (getCell ((splitChar ',' demoLine).map cleanCell) cIdx.quantity) ∧
      (0 ≤ jsParseFloatOr0 (getCell ((splitChar ',' demoLine).map cleanCell) cIdx.netAmount) →
        0 ≤ demoRec.cost) ∧
      (0 ≤ jsParseFloatOr0 (getCell ((splitChar ',' demoLine).map cleanCell) cIdx.quantity) →
        0 ≤ demoRec.quantity)) :=
  ⟨by decide,
    rowOutput_value_passthrough 5 cIdx demoLine Bucket.actionsMinutes demoRec (by decide)⟩

/-- C10.  The cell cleaning is a global strip of every double quote (not
only a surrounding pair): no cleaned cell contains `"`, the interior
quote of `a"b` is removed, and consequently every text field of every
produced record is quote-free. -/
theorem parse_quote_stripping :
    (∀ v : JStr, '"' ∉ cleanCell v) ∧
    cleanCell (str "a\"b") = str "ab" ∧
    (∀ (hdrLen : ℕ) (idx : ColumnIndices) (line : JStr) (b : Bucket) (r : ServiceData),
      rowOutput hdrLen idx line = some (b, r) →
      '"' ∉ r.date ∧ '"' ∉ r.sku ∧ '"' ∉ r.organization ∧
        '"' ∉ r.repository ∧ '"' ∉ r.costCenter) := by
  refine ⟨quote_not_mem_cleanCell, by decide, ?_⟩
  intro hdrLen idx line b r h
  obtain ⟨hd, _, _, hs, ho, hr, hc⟩ := rowOutput_inv h
  exact ⟨hd ▸ quote_not_mem_getCell line idx.date,
    hs ▸ quote_not_mem_getCell line idx.sku,
    ho ▸ quote_not_mem_getCell line idx.organization,
    hr ▸ quote_not_mem_getCell line idx.repository,
    hc ▸ quote_not_mem_getCell line idx.costCenter⟩

/-- Witness for `parse_quote_stripping` at a row with surrounding and
interior quotes. -/
theorem parse_quote_stripping_witness :
    rowOutput 5 cIdx demoLineQ = some (Bucket.actionsMinutes, demoRecQ) ∧
    ('"' ∉ demoRecQ.date ∧ '"' ∉ demoRecQ.sku ∧ '"' ∉ demoRecQ.organization ∧
      '"' ∉ demoRecQ.repository ∧ '"' ∉ demoRecQ.costCenter) :=
  ⟨by decide, parse_quote_stripping.2.2 5 cIdx demoLineQ Bucket.actionsMinutes demoRecQ (by decide)⟩

theorem mem_dedupFirst : ∀ (l : List JStr) (x : JStr), x ∈ dedupFirst l ↔ x ∈ l
  | [], x => by simp [dedupFirst]
  | a :: l, x => by
    rw [dedupFirst]
    by_cases hx : x = a
    · simp [hx]
    · simp only [List.mem_cons, hx, false_or]
      rw [mem_dedupFirst (l.filter (fun y => y ≠ a)) x, List.mem_filter]
      simp [hx]
termination_by l => l.length
decreasing_by
  simp only [List.length_cons]
  exact Nat.lt_succ_of_le (List.length_filter_le _ _)

theorem nodup_dedupFirst : ∀ l : List JStr, (dedupFirst l).Nodup
  | [] => by simp [dedupFirst]
  | a :: l => by
    rw [dedupFirst]
    refine List.nodup_cons.mpr ⟨fun hmem => ?_, nodup_dedupFirst (l.filter (fun y => y ≠ a))⟩
    have := (List.mem_filter.mp ((mem_dedupFirst _ _).mp hmem)).2
    simp at this
termination_by l => l.length
decreasing_by
  simp only [List.length_cons]
  exact Nat.lt_succ_of_le (List.length_filter_le _ _)

/-- C6.  The repository option list is empty with no organization
selected, and otherwise contains exactly the non-empty repository values
of the records of the selected organization, without duplicates and
sorted; and an organization change resets the repository filter to unset
in the same state update, leaving the other filter fields alone. -/
theorem repoOptions_organization_dependency :
    (∀ (data : List ServiceData) (org : JStr),
      (org = [] → repoOptions data org = []) ∧
      (∀ r : JStr, r ∈ repoOptions data org ↔
        (org ≠ [] ∧ r ≠ [] ∧ ∃ it ∈ data, it.organization = org ∧ it.repository = r)) ∧
      List.Sorted strLe (repoOptions data org) ∧
      (repoOptions data org).Nodup) ∧
    (∀ (st : FilterState) (org : JStr),
      (handleOrganizationChange st org).repository = [] ∧
      (handleOrganizationChange st org).organization = org ∧
      (handleOrganizationChange st org).dateStart = st.dateStart ∧
      (handleOrganizationChange st org).dateEnd = st.dateEnd ∧
      (handleOrganizationChange st org).costCenter = st.costCenter) := by
  refine ⟨fun data org => ⟨fun h => by simp [repoOptions, h], ?_, ?_, ?_⟩,
    fun st org => ⟨rfl, rfl, rfl, rfl, rfl⟩⟩
  · intro r
    unfold repoOptions
    by_cases horg : org = []
    · simp [horg]
    · rw [if_neg horg]
      rw [(List.perm_insertionSort _ _).mem_iff, mem_dedupFirst, List.mem_filter,
        List.mem_map]
      constructor
      · rintro ⟨⟨it, hit, hrepo⟩, hne⟩
        rw [List.mem_filter] at hit
        exact ⟨horg, by simpa using hne, it, hit.1, by simpa using hit.2, hrepo⟩
      · rintro ⟨-, hne, it, hit, horg', hrepo⟩
        exact ⟨⟨it, List.mem_filter.mpr ⟨hit, by simpa using horg'⟩, hrepo⟩, by simpa using hne⟩
  · unfold repoOptions
    by_cases horg : org = []
    · simp [horg]
    · rw [if_neg horg]
      exact List.sorted_insertionSort strLe _
  · unfold repoOptions
    by_cases horg : org = []
    · simp [horg]
    · rw [if_neg horg]
      exact ((List.perm_insertionSort _ _).nodup_iff).mpr (nodup_dedupFirst _)

theorem keys_upsertTotal_subset {l : List (JStr × ℚ × ℚ)} {k : JStr} {c q : ℚ}
    {x : JStr} (h : x ∈ (upsertTotal l k c q).map (·.1)) :
    x = k ∨ x ∈ l.map (·.1) := by
  induction l with
  | nil => simpa [upsertTotal] using h
  | cons e t ih =>
    rw [upsertTotal] at h
    by_cases he : e.1 = k
    · rw [if_pos he] at h
      rcases List.mem_map.mp h with ⟨p, hp, hx⟩
      rcases List.mem_cons.mp hp with hp | hp
      · exact Or.inl (by rw [← hx, hp, he])
      · exact Or.inr (List.mem_map.mpr ⟨p, List.mem_cons_of_mem e hp, hx⟩)
    · rw [if_neg he] at h
      rcases List.mem_map.mp h with ⟨p, hp, hx⟩
      rcases List.mem_cons.mp hp with hp | hp
      · exact Or.inr (by rw [← hx, hp]; exact List.mem_map.mpr ⟨e, List.mem_cons_self e t, rfl⟩)
      · rcases ih (List.mem_map.mpr ⟨p, hp, hx⟩) with h1 | h1
        · exact Or.inl h1
        · exact Or.inr (List.mem_map.mp h1 |>.elim fun p' ⟨hp', hx'⟩ =>
            List.mem_map.mpr ⟨p', List.mem_cons_of_mem e hp', hx'⟩)

theorem nodup_keys_upsertTotal {l : List (JStr × ℚ × ℚ)} (k : JStr) (c q : ℚ)
    (h : (l.map (·.1)).Nodup) : ((upsertTotal l k c q).map (·.1)).Nodup := by
  induction l with
  | nil => simp [upsertTotal]
  | cons e t ih =>
    rw [upsertTotal]
    rw [List.map_cons, List.nodup_cons] at h
    by_cases he : e.1 = k
    · rw [if_pos he]
      simpa using h
    · rw [if_neg he, List.map_cons, List.nodup_cons]
      refine ⟨fun hmem => ?_, ih h.2⟩
      rcases keys_upsertTotal_subset hmem with h1 | h1
      · exact he h1
      · exact h.1 h1

theorem nodup_keys_repoTotalsList (data : List ServiceData) :
    ((repoTotalsList data).map (·.1)).Nodup := by
  suffices h : ∀ (l : List ServiceData) (acc : List (JStr × ℚ × ℚ)),
      (acc.map (·.1)).Nodup →
      ((l.foldl (fun a it => upsertTotal a (repoKeyOf it) it.cost it.quantity) acc).map
        (·.1)).Nodup by
    exact h data [] (by simp)
  intro l
  induction l with
  | nil => intro acc h; simpa using h
  | cons it t ih =>
    intro acc h
    exact ih _ (nodup_keys_upsertTotal _ _ _ h)

theorem lookupTotal_eq {pairs : List (JStr × ℚ × ℚ)}
    (hnd : (pairs.map (·.1)).Nodup) {p : JStr × ℚ × ℚ} (hp : p ∈ pairs) :
    lookupTotal pairs p.1 = p.2 := by
  induction pairs with
  | nil => cases hp
  | cons e t ih =>
    rw [List.map_cons, List.nodup_cons] at hnd
    rcases List.mem_cons.mp hp with hp | hp
    · subst hp
      simp [lookupTotal]
    · have hne : e.1 ≠ p.1 := fun h => hnd.1 (h ▸ List.mem_map.mpr ⟨p, hp, rfl⟩)
      unfold lookupTotal at ih ⊢
      rw [List.find?_cons_of_neg _ (by simpa using hne)]
      exact ih hnd.2 hp

theorem conservation_aux (f : ℚ × ℚ → ℚ) (bd : Breakdown) (n : ℕ)
    (data : List ServiceData) :
    (((topReposBy bd n data).map
        (fun k => f (lookupTotal (repoTotalsList data) k))).sum +
      ((otherRepoKeys bd n data).map
        (fun k => f (lookupTotal (repoTotalsList data) k))).sum) =
      ((repoTotalsList data).map (fun e => f e.2)).sum := by
  have hperm : (rankedRepoPairs bd data).Perm (repoTotalsList data) :=
    List.perm_insertionSort _ _
  have hnd : ((repoTotalsList data).map (·.1)).Nodup := nodup_keys_repoTotalsList data
  have hnds : ((rankedRepoPairs bd data).map (·.1)).Nodup :=
    ((hperm.map (·.1)).nodup_iff).mpr hnd
  have htop : ((topReposBy bd n data).map
      (fun k => f (lookupTotal (repoTotalsList data) k))) =
      ((rankedRepoPairs bd data).take n).map (fun p => f p.2) := by
    rw [topReposBy, List.map_map]
    refine List.map_congr_left fun p hp => ?_
    have hpp : p ∈ repoTotalsList data :=
      hperm.mem_iff.mp ((List.take_sublist n _).mem hp)
    simp only [Function.comp_apply, lookupTotal_eq hnd hpp]
  have hq : otherRepoKeys bd n data =
      ((repoTotalsList data).filter
        (fun p => !(topReposBy bd n data).contains p.1)).map (·.1) := by
    rw [otherRepoKeys, List.filter_map]
    rfl
  have hoth : ((otherRepoKeys bd n data).map
      (fun k => f (lookupTotal (repoTotalsList data) k))) =
      ((repoTotalsList data).filter
        (fun p => !(topReposBy bd n data).contains p.1)).map (fun p => f p.2) := by
    rw [hq, List.map_map]
    refine List.map_congr_left fun p hp => ?_
    have hpp : p ∈ repoTotalsList data := List.mem_of_mem_filter hp
    simp only [Function.comp_apply, lookupTotal_eq hnd hpp]
  have hfperm : ((repoTotalsList data).filter
      (fun p => !(topReposBy bd n data).contains p.1)).Perm
      ((rankedRepoPairs bd data).filter
        (fun p => !(topReposBy bd n data).contains p.1)) :=
    (hperm.filter _).symm
  have hsplit : (rankedRepoPairs bd data).filter
      (fun p => !(topReposBy bd n data).contains p.1) =
      (rankedRepoPairs bd data).drop n := by
    conv_lhs => rw [← List.take_append_drop n (rankedRepoPairs bd data)]
    rw [List.filter_append]
    have hdisj : List.Disjoint (((rankedRepoPairs bd data).take n).map (·.1))
        (((rankedRepoPairs bd data).drop n).map (·.1)) := by
      refine List.disjoint_of_nodup_append ?_
      rw [← List.map_append, List.take_append_drop]
      exact hnds
    have h1 : ((rankedRepoPairs bd data).take n).filter
        (fun p => !(topReposBy bd n data).contains p.1) = [] := by
      refine List.filter_eq_nil_iff.mpr fun p hp => ?_
      have : p.1 ∈ topReposBy bd n data := List.mem_map.mpr ⟨p, hp, rfl⟩
      simp [List.contains, List.elem_iff, this]
    have h2 : ((rankedRepoPairs bd data).drop n).filter
        (fun p => !(topReposBy bd n data).contains p.1) =
        (rankedRepoPairs bd data).drop n := by
      refine List.filter_eq_self.mpr fun p hp => ?_
      have hnot : p.1 ∉ topReposBy bd n data := by
        intro hmem
        exact hdisj hmem (List.mem_map.mpr ⟨p, hp, rfl⟩)
      simp [List.contains, List.elem_iff, hnot]
    rw [h1, h2, List.nil_append]
  have hfperm2 : ((repoTotalsList data).filter
      (fun p => !(topReposBy bd n data).contains p.1)).Perm
      ((rankedRepoPairs bd data).drop n) := hsplit ▸ hfperm
  rw [htop, hoth, ((hfperm2.map (fun p => f p.2)).sum_eq),
    ← List.sum_append, ← List.map_append, List.take_append_drop]
  exact ((hperm.map (fun p => f p.2)).sum_eq)

/-- C3.  Top-N + Others conservation: for every bucket, ranking metric
and cutoff, the sum of the top-N entries' costs plus the synthetic
`"Others"` cost (the fold of all excluded keys, `0` when nothing is
excluded) equals the total cost over all distinct keys; likewise for
quantity.  Numbers are exact rationals, matching the claim's
"up to floating-point associativity" reading. -/
theorem topN_others_conservation (data : List ServiceData) (bd : Breakdown) (n : ℕ) :
    (((topReposBy bd n data).map
        (fun k => (lookupTotal (repoTotalsList data) k).1)).sum +
      othersCost bd n data =
      ((repoTotalsList data).map (fun e => e.2.1)).sum) ∧
    (((topReposBy bd n data).map
        (fun k => (lookupTotal (repoTotalsList data) k).2)).sum +
      othersQuantity bd n data =
      ((repoTotalsList data).map (fun e => e.2.2)).sum) :=
  ⟨conservation_aux (fun v => v.1) bd n data, conservation_aux (fun v => v.2) bd n data⟩

/-- C4 (counterexample).  The claim says the daily matrix rows are
sorted by the actual date value (so across years by year).  The code
replaces each row's date by its year-free display string FIRST and sorts
by `new Date` of that display string, so `2024-01-15` ("Jan 15") sorts
before `2023-12-01` ("Dec 1"). -/
theorem stackedChart_sort_cex :
    actionsMinutesStacked dataC4 ≠
      specDateSortedStacked (topReposBy Breakdown.cost 10 dataC4) dataC4 ∧
    (actionsMinutesStacked dataC4).map (fun r => r.date) =
      [str "Jan 15", str "Dec 1"] ∧
    (specDateSortedStacked (topReposBy Breakdown.cost 10 dataC4) dataC4).map
      (fun r => r.date) = [str "Dec 1", str "Jan 15"] := by decide

/-- C4 (amended): the rows of the stacked matrix are sorted ascending by
the (month, day) key parsed back from the year-free display string — the
year is discarded — for both chart variants (they share the same map +
sort + slice(-30) pipeline). -/
theorem stackedChartData_sorted_by_display (top : List JStr)
    (data : List ServiceData) :
    List.Sorted dispLe (stackedChartData top data) ∧
    List.Sorted dispLe (actionsMinutesStacked data) := by
  haveI : IsTotal ChartRow dispLe := ⟨fun a b => Nat.le_total _ _⟩
  haveI : IsTrans ChartRow dispLe := ⟨fun _ _ _ hab hbc => Nat.le_trans hab hbc⟩
  constructor
  · exact List.Pairwise.sublist (List.drop_sublist _ _)
      (List.sorted_insertionSort dispLe _)
  · exact List.Pairwise.sublist (List.drop_sublist _ _)
      (List.sorted_insertionSort dispLe _)

theorem skippable_rowOutput_none {header : List JStr} {idx : ColumnIndices}
    {line : JStr} (h : isSkippableRow header idx line = true) :
    rowOutput header.length idx line = none := by
  simp only [isSkippableRow] at h
  simp only [rowOutput]
  by_cases h1 : ((splitChar ',' line).map cleanCell).length < header.length
  · rw [if_pos h1]
  · rw [if_neg h1]
    cases hx : decide (((splitChar ',' line).map cleanCell).length < header.length) with
    | true => exact absurd (of_decide_eq_true hx) h1
    | false =>
      rw [hx, Bool.false_or] at h
      rw [if_pos h]

theorem filterMap_eraseIdx {f : α → Option β} :
    ∀ (l : List α) (i : ℕ) (a : α), l[i]? = some a → f a = none →
      (l.eraseIdx i).filterMap f = l.filterMap f
  | [], i, a, hget, _ => by simp at hget
  | x :: t, 0, a, hget, hnone => by
    simp only [List.getElem?_cons_zero, Option.some.injEq] at hget
    subst hget
    simp [List.eraseIdx, List.filterMap_cons, hnone]
  | x :: t, i + 1, a, hget, hnone => by
    simp only [List.getElem?_cons_succ] at hget
    simp only [List.eraseIdx, List.filterMap_cons]
    rw [filterMap_eraseIdx t i a hget hnone]

/-- C8 (counterexample).  The claim quantifies over every CSV text, but
when the skipped line is the ONLY data line the two parses differ: the
original text parses (to empty buckets) while the text with the line
removed has a single line and raises the "empty or invalid" error. -/
theorem parseCSV_skip_only_row_cex :
    isSkippableRow ((splitChar ',' (str "a,b")).map cleanCell)
      (resolveIndices ((splitChar ',' (str "a,b")).map cleanCell)) (str "x") = true ∧
    exceptOk (parseCSV (str "a,b\nx")) = true ∧
    exceptOk (parseCSV (str "a,b")) = false ∧
    splitChar '\n' (jsTrim (str "a,b\nx")) = [str "a,b", str "x"] ∧
    splitChar '\n' (jsTrim (str "a,b")) = [str "a,b"] := by decide

/-- C8 (amended): a data line with fewer comma-split fields than the
header, or an empty (or absent) date, product or sku cell, produces no
record; and removing it from the line list leaves the whole parse result
(bucket contents, their order, and every derived total) unchanged —
provided it is not the only data line (removing the only data line makes
the file fall under the fewer-than-two-lines error instead). -/
theorem parseLines_skip_row (hd : JStr) (rows : List JStr) (i : ℕ) (line : JStr)
    (hget : rows[i]? = some line)
    (hskip : isSkippableRow ((splitChar ',' hd).map cleanCell)
      (resolveIndices ((splitChar ',' hd).map cleanCell)) line = true)
    (hlen : 2 ≤ rows.length) :
    rowOutput ((splitChar ',' hd).map cleanCell).length
      (resolveIndices ((splitChar ',' hd).map cleanCell)) line = none ∧
    parseLines (hd :: rows.eraseIdx i) = parseLines (hd :: rows) := by
  have hnone := skippable_rowOutput_none hskip
  refine ⟨hnone, ?_⟩
  have hi : i < rows.length := by
    rcases List.getElem?_eq_some.mp hget with ⟨h, _⟩
    exact h
  have hlen1 : ¬ (hd :: rows).length < 2 := by
    simp only [List.length_cons]
    omega
  have hlen2 : ¬ (hd :: rows.eraseIdx i).length < 2 := by
    simp only [List.length_cons, List.length_eraseIdx, if_pos hi]
    omega
  simp only [parseLines, if_neg hlen1, if_neg hlen2, List.headD_cons, List.tail_cons]
  rw [filterMap_eraseIdx rows i line hget hnone]

/-- Witness for `parseLines_skip_row`: a short row among two data rows. -/
theorem parseLines_skip_row_witness :
    rowOutput ((splitChar ',' (str "a,b")).map cleanCell).length
      (resolveIndices ((splitChar ',' (str "a,b")).map cleanCell)) (str "x") = none ∧
    parseLines [str "a,b", str "1,2"] = parseLines [str "a,b", str "x", str "1,2"] :=
  parseLines_skip_row (str "a,b") [str "x", str "1,2"] 0 (str "x")
    (by decide) (by decide) (by decide)

theorem splitChar_ne_nil (c : Char) (l : JStr) : splitChar c l ≠ [] := by
  cases l with
  | nil => simp [splitChar]
  | cons a t =>
    rw [splitChar]
    match h : splitChar c t with
    | [] => simp
    | r :: rs =>
      by_cases hac : a = c
      · simp [hac]
      · simp [hac]

theorem splitChar_append_cons (c : Char) (y : JStr) :
    ∀ x : JStr, splitChar c (x ++ c :: y) = splitChar c x ++ splitChar c y
  | [] => by
    rw [List.nil_append, splitChar, splitChar]
    match h : splitChar c y with
    | [] => exact absurd h (splitChar_ne_nil c y)
    | r :: rs => simp
  | a :: x => by
    rw [List.cons_append, splitChar]
    rw [splitChar_append_cons c y x]
    match h : splitChar c x with
    | [] => exact absurd h (splitChar_ne_nil c x)
    | r :: rs => by_cases hac : a = c <;> simp [hac, splitChar, h]

theorem splitChar_no_sep (c : Char) : ∀ x : JStr, (∀ a ∈ x, a ≠ c) →
    splitChar c x = [x]
  | [], _ => rfl
  | a :: x, h => by
    rw [splitChar, splitChar_no_sep c x (fun b hb => h b (List.mem_cons_of_mem a hb))]
    simp [h a (List.mem_cons_self a x)]

theorem one_le_neCount {c : Char} {a : Char} :
    ∀ l : JStr, a ∈ l → a ≠ c →
      1 ≤ ((splitChar c l).filter (fun x => x ≠ [])).length
  | [], ha, _ => absurd ha (List.not_mem_nil a)
  | b :: t, ha, hne => by
    match h : splitChar c t with
    | [] => exact absurd h (splitChar_ne_nil c t)
    | r :: rs =>
      have hsplit : splitChar c (b :: t) =
          if b = c then [] :: r :: rs else (b :: r) :: rs := by
        rw [splitChar, h]
      by_cases hbc : b = c
      · rw [hsplit, if_pos hbc]
        have hat : a ∈ t := by
          rcases List.mem_cons.mp ha with h1 | h1
          · exact absurd (h1.trans hbc) hne
          · exact h1
        have := one_le_neCount t hat hne
        rw [h] at this
        simpa using this
      · rw [hsplit, if_neg hbc]
        simp

theorem head?_dropWhile_false {p : α → Bool} {l : List α} {a : α} {t : List α}
    (h : l.dropWhile p = a :: t) : p a = false := by
  have := List.head?_dropWhile_not p l
  rw [h] at this
  simpa using this

theorem neCount_aux {s w1 p q w2 : JStr}
    (hdecomp : s = (w1 ++ p) ++ '\n' :: (q ++ w2))
    (hp : ∃ a ∈ p, a ≠ '\n') (hq : ∃ b ∈ q, b ≠ '\n') :
    2 ≤ nonEmptyLineCount s := by
  subst hdecomp
  unfold nonEmptyLineCount
  rw [splitChar_append_cons, List.filter_append, List.length_append]
  obtain ⟨a, ha, hane⟩ := hp
  obtain ⟨b, hb, hbne⟩ := hq
  have h1 := one_le_neCount (c := '\n') (w1 ++ p) (List.mem_append_right w1 ha) hane
  have h2 := one_le_neCount (c := '\n') (q ++ w2) (List.mem_append_left w2 hb) hbne
  omega

/-- If the trimmed text still contains a newline, the raw text has at
least two non-empty lines. -/
theorem two_le_neCount_of_mem_trim {s : JStr} (h : '\n' ∈ jsTrim s) :
    2 ≤ nonEmptyLineCount s := by
  have htne : jsTrim s ≠ [] := List.ne_nil_of_mem h
  have htrev : (jsTrim s).reverse = List.dropWhile isWs (s.dropWhile isWs).reverse := by
    unfold jsTrim
    rw [List.reverse_reverse]
  have hsd : s.dropWhile isWs =
      jsTrim s ++ ((s.dropWhile isWs).reverse.takeWhile isWs).reverse := by
    conv_lhs => rw [← List.reverse_reverse (s.dropWhile isWs)]
    conv_lhs => rw [← List.takeWhile_append_dropWhile isWs (s.dropWhile isWs).reverse]
    rw [List.reverse_append]
    rfl
  -- split the trimmed text at its first newline
  have hqne : (jsTrim s).dropWhile (fun a => a != '\n') ≠ [] := by
    rw [Ne, List.dropWhile_eq_nil_iff]
    intro hall
    have := hall '\n' h
    simp at this
  obtain ⟨c0, q, hq⟩ := List.exists_cons_of_ne_nil hqne
  have hc0 : c0 = '\n' := by
    have := head?_dropWhile_false hq
    simpa using this
  subst hc0
  have htPQ : jsTrim s = (jsTrim s).takeWhile (fun a => a != '\n') ++ '\n' :: q := by
    conv_lhs => rw [← List.takeWhile_append_dropWhile (fun a => a != '\n') (jsTrim s)]
    rw [hq]
  -- the first character of the trimmed text is not whitespace
  obtain ⟨hT, tT, htcons⟩ := List.exists_cons_of_ne_nil htne
  have hs1cons : s.dropWhile isWs =
      hT :: (tT ++ ((s.dropWhile isWs).reverse.takeWhile isWs).reverse) := by
    conv_lhs => rw [hsd, htcons, List.cons_append]
  have hHT : isWs hT = false := head?_dropWhile_false hs1cons
  have hT_ne : hT ≠ '\n' := by
    intro he
    rw [he] at hHT
    simp [isWs] at hHT
  -- hence the part before the first newline is non-empty and starts with hT
  have hpne : (jsTrim s).takeWhile (fun a => a != '\n') ≠ [] := by
    intro hpnil
    rw [hpnil, List.nil_append, htcons] at htPQ
    exact hT_ne (List.cons.inj htPQ).1
  obtain ⟨hp0, pt, hpcons⟩ := List.exists_cons_of_ne_nil hpne
  have hp0T : hp0 = hT := by
    rw [hpcons, htcons, List.cons_append] at htPQ
    exact (List.cons.inj htPQ).1.symm
  -- the last character of the trimmed text is not whitespace
  have hqrev_ne : q ≠ [] := by
    intro hqnil
    have hrev : List.dropWhile isWs (s.dropWhile isWs).reverse =
        '\n' :: ((jsTrim s).takeWhile (fun a => a != '\n')).reverse := by
      rw [← htrev]
      conv_lhs => rw [htPQ]
      rw [hqnil]
      simp
    have := head?_dropWhile_false hrev
    simp [isWs] at this
  have hqrevne : q.reverse ≠ [] := by simpa using hqrev_ne
  obtain ⟨qlast, qinit, hqrev⟩ := List.exists_cons_of_ne_nil hqrevne
  have hqlast_ws : isWs qlast = false := by
    have hrev2 : List.dropWhile isWs (s.dropWhile isWs).reverse =
        qlast :: (qinit ++ '\n' :: ((jsTrim s).takeWhile (fun a => a != '\n')).reverse) := by
      rw [← htrev]
      conv_lhs => rw [htPQ]
      rw [List.reverse_append, List.reverse_cons, hqrev]
      simp
    exact head?_dropWhile_false hrev2
  have hqlast_ne : qlast ≠ '\n' := by
    intro he
    rw [he] at hqlast_ws
    simp [isWs] at hqlast_ws
  have hqlast_mem : qlast ∈ q := by
    rw [← List.mem_reverse, hqrev]
    exact List.mem_cons_self _ _
  -- assemble the decomposition of the raw text and count
  have hsdecomp : s = (s.takeWhile isWs ++ (jsTrim s).takeWhile (fun a => a != '\n')) ++
      '\n' :: (q ++ ((s.dropWhile isWs).reverse.takeWhile isWs).reverse) := by
    calc s = s.takeWhile isWs ++ s.dropWhile isWs :=
        (List.takeWhile_append_dropWhile isWs s).symm
    _ = s.takeWhile isWs ++ (jsTrim s ++
        ((s.dropWhile isWs).reverse.takeWhile isWs).reverse) := by rw [← hsd]
    _ = s.takeWhile isWs ++ (((jsTrim s).takeWhile (fun a => a != '\n') ++ '\n' :: q) ++
        ((s.dropWhile isWs).reverse.takeWhile isWs).reverse) := by
        conv_lhs => rw [htPQ]
    _ = (s.takeWhile isWs ++ (jsTrim s).takeWhile (fun a => a != '\n')) ++
        '\n' :: (q ++ ((s.dropWhile isWs).reverse.takeWhile isWs).reverse) := by
        simp [List.append_assoc]
  refine neCount_aux hsdecomp ⟨hT, ?_, hT_ne⟩ ⟨qlast, hqlast_mem, hqlast_ne⟩
  rw [hpcons, ← hp0T]
  exact List.mem_cons_self _ _

theorem parseCSV_error_of_few_lines {content : JStr}
    (h : nonEmptyLineCount content < 2) :
    parseCSV content = .error "CSV file appears to be empty or invalid" := by
  have hnmem : '\n' ∉ jsTrim content := fun hmem => by
    have := two_le_neCount_of_mem_trim hmem
    omega
  have hsingle : splitChar '\n' (jsTrim content) = [jsTrim content] :=
    splitChar_no_sep '\n' _ (fun a ha hac => hnmem (hac ▸ ha))
  unfold parseCSV parseLines
  rw [hsingle]
  rfl

/-- C5 (counterexample).  The claim says `processFile` fails whenever the
file's extension is not `.csv`; but the code computes the extension as
the last `"."`-separated component of the name, so a dotless file named
exactly `csv` — which has no `.csv` extension — is accepted and
processed successfully. -/
theorem processFile_dotless_name_cex :
    (processFile ⟨str "csv", .ok goodContent⟩).success = true ∧
    specNameHasCsvExt (str "csv") = false := by decide

/-- C5 (amended).  `processFile` is total and structured: a failure
carries an error message and a success carries data; it fails whenever
the lowercased last dot-separated component of the file name is not
`"csv"` (the code's notion of extension — a dotless name equal to `csv`
is accepted); it fails whenever the text has fewer than two non-empty
lines; and when the extension check passes, the parse succeeds and the
monthly summary is empty (no row was categorized), it returns exactly
`success = false` with error `"No billing data found in the CSV
file."`. -/
theorem processFile_error_contract :
    (∀ f : JSFile,
      ((processFile f).success = false → (processFile f).error.isSome) ∧
      ((processFile f).success = true → (processFile f).data.isSome)) ∧
    (∀ f : JSFile, toLowerStr ((splitChar '.' f.name).getLastD []) ≠ str "csv" →
      (processFile f).success = false) ∧
    (∀ (f : JSFile) (content : JStr), f.text = .ok content →
      nonEmptyLineCount content < 2 → (processFile f).success = false) ∧
    (∀ (f : JSFile) (content : JStr) (res : ParseResult), f.text = .ok content →
      toLowerStr ((splitChar '.' f.name).getLastD []) = str "csv" →
      parseCSV content = .ok res → res.data.length = 0 →
      processFile f =
        { success := false, error := some "No billing data found in the CSV file.",
          data := none }) := by
  refine ⟨fun f => ?_, fun f hext => ?_, fun f content hft hlt => ?_,
    fun f content res hft hext hparse hdat => ?_⟩
  · unfold processFile
    rcases f.text with m | content
    · simp
    · dsimp only
      split
      · simp
      · split
        · simp
        · split
          · simp
          · simp
  · unfold processFile
    rcases f.text with m | content
    · rfl
    · dsimp only
      rw [if_pos hext]
  · unfold processFile
    rw [hft]
    dsimp only
    split
    · rfl
    · rw [parseCSV_error_of_few_lines hlt]
  · unfold processFile
    rw [hft]
    dsimp only
    rw [if_neg (by simpa using hext), hparse]
    dsimp only
    rw [if_pos hdat]

/-- Witness for `processFile_error_contract`: a `.txt` file, a one-line
file, and a file whose single data row is skipped. -/
theorem processFile_error_contract_witness :
    (processFile fBadExt).success = false ∧
    (processFile fShort).success = false ∧
    processFile fNoData =
      { success := false, error := some "No billing data found in the CSV file.",
        data := none } :=
  ⟨processFile_error_contract.2.1 fBadExt (by decide),
   processFile_error_contract.2.2.1 fShort (str "onlyheader") rfl (by decide),
   processFile_error_contract.2.2.2 fNoData (str "Date,Product,SKU\nfoo")
     ⟨[], ⟨[], [], [], [], []⟩⟩ rfl (by decide) (by rfl) rfl⟩
